import Mathlib

/-!
# Verification of the Main-Monte sweep pipeline (`src/main_monte.py`)

Shallow embedding of the run-configuration enumerator, the template editor,
the result harvester and the sweep orchestrator of `main_monte.py`.

Modelling conventions:
* Python `float` parameters (`pitch_deg`, `mass_flow`) are modelled as exact
  rationals `ℚ`; the program performs no float arithmetic, it only formats
  values and parses decimal literals, so the rational model captures the
  decimal-rounding behaviour of the format specifiers (`%g` rounds to six
  significant digits, `%.4f` to four decimals) exactly on all inputs whose
  binary representation is exact, which includes every input used below.
* File contents are `List Char`; a directory is an association list from
  file names (`String`) to contents.  `PipeState` keeps the three disjoint
  storage regions the script uses (`solver_workdir` scratch directory,
  `results_root` archive directory, the cumulative CSV file) plus a map for
  the remaining absolute paths (template file, rendered `.pre` output,
  matlab log).
* Exceptions are modelled by `Except` with one constructor per raise site.
* External processes (matlab, the solver batch file) are oracles supplied by
  a `MonteEnv`: exit codes, log texts and the scratch contents the solver
  leaves behind, indexed by the 0-based position of the case in the sweep.
-/

/-- Decimal digit character for `n % 10` (total: everything `≥ 9` maps to '9'). -/
def d10 (n : Nat) : Char :=
  if n = 0 then '0' else if n = 1 then '1' else if n = 2 then '2'
  else if n = 3 then '3' else if n = 4 then '4' else if n = 5 then '5'
  else if n = 6 then '6' else if n = 7 then '7' else if n = 8 then '8' else '9'

/-- Inverse of `d10` on decimal digit characters. -/
def toDig (c : Char) : Nat :=
  if c = '0' then 0 else if c = '1' then 1 else if c = '2' then 2
  else if c = '3' then 3 else if c = '4' then 4 else if c = '5' then 5
  else if c = '6' then 6 else if c = '7' then 7 else if c = '8' then 8 else 9

/-- Fuel-bounded decimal digit expansion (structural recursion so that the
kernel can evaluate it; `natDigits` supplies always-sufficient fuel). -/
def natDigitsAux : Nat → Nat → List Char
  | 0, _ => []
  | fuel + 1, n =>
    if n < 10 then [d10 n] else natDigitsAux fuel (n / 10) ++ [d10 (n % 10)]

/-- Decimal digits of a natural number, most significant first. -/
def natDigits (n : Nat) : List Char := natDigitsAux (n + 1) n

/-- Read a digit string back as a natural number. -/
def digitsToNat (l : List Char) : Nat :=
  l.foldl (fun a c => 10 * a + toDig c) 0

/-- Rendering of a Python `int` (`f"{z}"` / `str(z)`). -/
def intStrL (z : Int) : List Char :=
  if z < 0 then '-' :: natDigits z.natAbs else natDigits z.natAbs

/-- The ten decimal digit characters. -/
def digitChars : List Char := ['0','1','2','3','4','5','6','7','8','9']

/-- Round `num / den` to the nearest integer, ties to even (Python rounding). -/
def rne (num den : Nat) : Nat :=
  let q := num / den
  let r := num % den
  if 2 * r < den then q
  else if den < 2 * r then q + 1
  else if q % 2 = 0 then q else q + 1

/-- Left-pad a digit string with '0' to length `k`. -/
def padTo (k : Nat) (l : List Char) : List Char :=
  List.replicate (k - l.length) '0' ++ l

/-- Drop trailing '0' characters. -/
def stripTrailingZeros (l : List Char) : List Char :=
  (l.reverse.dropWhile (fun c => c = '0')).reverse

/-- Smallest `k ≥ 1` with `nn * 10 ^ k ≥ dd` (fuel-bounded search; for
`1 ≤ nn < dd` the fuel `dd` always suffices since `10 ^ dd > dd`). -/
def smallKAux : Nat → Nat → Nat → Nat
  | 0, _, _ => 1
  | fuel + 1, nn, dd => if dd ≤ nn * 10 then 1 else 1 + smallKAux fuel (nn * 10) dd

/-- Decimal exponent of `nn / dd` (`1 ≤ nn`, `1 ≤ dd`): the `e` with
`10 ^ e ≤ nn / dd < 10 ^ (e + 1)`. -/
def decExp (nn dd : Nat) : Int :=
  if dd ≤ nn then ((natDigits (nn / dd)).length : Int) - 1
  else - (smallKAux dd nn dd : Int)

/-- Prepend a decimal point unless the fractional part is empty. -/
def withDot (f : List Char) : List Char := if f = [] then [] else '.' :: f

/-- Fractional digits of `%g` fixed notation before zero stripping: the
digits after position `e + 1` for `e ≥ 0`, leading zeros plus all six
digits for `e < 0`. -/
def gFracPart (md : List Char) (e : Int) : List Char :=
  if 0 ≤ e then md.drop (e.natAbs + 1)
  else List.replicate (e.natAbs - 1) '0' ++ md

/-- `%g` fixed notation from a six-digit mantissa `md` and exponent `e`,
with insignificant trailing zeros stripped. -/
def gFixed (sgn md : List Char) (e : Int) : List Char :=
  sgn ++ (if 0 ≤ e then md.take (e.natAbs + 1) else ['0'])
      ++ withDot (stripTrailingZeros (gFracPart md e))

/-- `%g` scientific notation from a six-digit mantissa `md` and exponent
`e`, with insignificant trailing zeros stripped and the exponent padded to
at least two digits. -/
def gSci (sgn md : List Char) (e : Int) : List Char :=
  sgn ++ (md.take 1 ++ withDot (stripTrailingZeros (md.drop 1)))
      ++ 'e' :: (if 0 ≤ e then '+' else '-') :: padTo 2 (natDigits e.natAbs)

/-- Python `f"{q:g}"` on the exact rational value: round to 6 significant
digits, use fixed notation when the decimal exponent is in `[-4, 6)` and
scientific notation otherwise. -/
def pyFormatGL (q : ℚ) : List Char :=
  if q = 0 then ['0']
  else
    let sgn : List Char := if q < 0 then ['-'] else []
    let nn := q.num.natAbs
    let dd := q.den
    let e0 := decExp nn dd
    -- mantissa: nn/dd * 10 ^ (5 - e0), rounded half-to-even
    let m0 := if 5 ≤ e0 then rne nn (dd * 10 ^ (e0 - 5).natAbs)
              else rne (nn * 10 ^ (5 - e0).natAbs) dd
    -- rounding can overflow to 10^6: renormalise
    let m := if m0 = 10 ^ 6 then 10 ^ 5 else m0
    let e := if m0 = 10 ^ 6 then e0 + 1 else e0
    let md := padTo 6 (natDigits m)
    if -4 ≤ e ∧ e < 6 then gFixed sgn md e else gSci sgn md e

/-- Python `f"{q:.4f}"` on the exact rational value: fixed notation with
exactly four decimals, rounded half-to-even. -/
def pyFormat4fL (q : ℚ) : List Char :=
  let sgn : List Char := if q < 0 then ['-'] else []
  let m := rne (q.num.natAbs * 10 ^ 4) q.den
  sgn ++ natDigits (m / 10 ^ 4) ++ '.' :: padTo 4 (natDigits (m % 10 ^ 4))

/-- Fuel-bounded factor removal (structural recursion for kernel evaluation). -/
def stripPowAux (p : Nat) : Nat → Nat → Nat × Nat
  | 0, n => (0, n)
  | fuel + 1, n =>
    if 1 < p ∧ n ≠ 0 ∧ n % p = 0 then
      let r := stripPowAux p fuel (n / p)
      (r.1 + 1, r.2)
    else (0, n)

/-- Remove all factors `p` from `n`: returns `(count, remainder)`. -/
def stripPow (p n : Nat) : Nat × Nat := stripPowAux p n n

/-- Python `str`/`f"{x}"` on a float value, modelled on the exact rational:
for a terminating decimal (denominator `2^i * 5^j`) this is the exact
shortest decimal with at least one fractional digit (`str(4.0) = "4.0"`);
other denominators (which cannot arise from binary floats) fall back to a
17-decimal rounding.  The model always uses fixed-point form, whereas
Python switches to scientific form for magnitudes below `1e-4` or at least
`1e16`; every value appearing in the claims is inside the fixed-point
range. -/
def pyFloatStrL (q : ℚ) : List Char :=
  let sgn : List Char := if q < 0 then ['-'] else []
  let nn := q.num.natAbs
  let dd := q.den
  let s2 := stripPow 2 dd
  let s5 := stripPow 5 s2.2
  if s5.2 = 1 then
    let k := max s2.1 s5.1
    let m := nn * 10 ^ k / dd
    let frac := if k = 0 then ['0'] else padTo k (natDigits (m % 10 ^ k))
    sgn ++ natDigits (m / 10 ^ k) ++ '.' :: frac
  else
    let m := rne (nn * 10 ^ 17) dd
    sgn ++ natDigits (m / 10 ^ 17) ++ '.' :: padTo 17 (natDigits (m % 10 ^ 17))

/-- The character substitution performed by `.replace(".", "p")`:
a one-character pattern makes Python's `str.replace` a character map. -/
def dotP (c : Char) : Char := if c = '.' then 'p' else c

/-- The f-string `f"p{pitch:g}_rpm{rpm}_mdot{mdot:.4f}"` of
`build_run_configs` before the `.replace`. -/
def run_id_raw (pitch : ℚ) (rpm : Int) (mdot : ℚ) : List Char :=
  'p' :: (pyFormatGL pitch ++
    '_' :: 'r' :: 'p' :: 'm' :: (intStrL rpm ++
      '_' :: 'm' :: 'd' :: 'o' :: 't' :: pyFormat4fL mdot))

/-- The `run_id` of `build_run_configs`:
`f"p{pitch:g}_rpm{rpm}_mdot{mdot:.4f}".replace(".", "p")`. -/
def pyRunId (pitch : ℚ) (rpm : Int) (mdot : ℚ) : String :=
  ⟨(run_id_raw pitch rpm mdot).map dotP⟩

/-- `RunConfig` dataclass of `main_monte.py`. -/
structure RunConfig where
  pitch_deg : ℚ
  rpm : Int
  mass_flow : ℚ
  run_id : String
deriving DecidableEq, Repr

/-- Error raised by `build_run_configs` when the paired arrays disagree
(a `ValueError` in the source; `ConfigurationError` in the spec). -/
inductive ConfigError where
  | lengthMismatch
deriving DecidableEq, Repr

/-- `build_run_configs(pitch_array, rpm_array, mass_flow_array)`:
checks the paired arrays have equal length, then emits one `RunConfig` per
`(pitch, zip(rpm, mass_flow))` combination, pitch in the outer loop. -/
def build_run_configs (pitch_array : List ℚ) (rpm_array : List Int)
    (mass_flow_array : List ℚ) : Except ConfigError (List RunConfig) :=
  if mass_flow_array.length ≠ rpm_array.length then
    .error .lengthMismatch
  else
    .ok <| pitch_array.flatMap fun pitch =>
      (rpm_array.zip mass_flow_array).map fun rm =>
        { pitch_deg := pitch, rpm := rm.1, mass_flow := rm.2
          run_id := pyRunId pitch rm.1 rm.2 }

/-! ## Text utilities: substring test, line splitting, `str.replace` -/

/-- Does `l` start with `pat`? -/
def startsWithL : List Char → List Char → Bool
  | [], _ => true
  | _ :: _, [] => false
  | p :: ps, c :: cs => p == c && startsWithL ps cs

/-- Python's `pat in line` substring test. -/
def hasSub (pat : List Char) : List Char → Bool
  | [] => startsWithL pat []
  | c :: t => startsWithL pat (c :: t) || hasSub pat t

/-- Split at newline characters.  (Python `splitlines` additionally drops a
final empty line and splits at `\r`; the extra empty line produced here
contains no marker and no artifact name, so the difference is immaterial
for every property below.) -/
def splitOnNl : List Char → List (List Char)
  | [] => [[]]
  | c :: t =>
    if c = '\n' then [] :: splitOnNl t
    else
      match splitOnNl t with
      | [] => [[c]]
      | h :: r => (c :: h) :: r

/-- Fuel-bounded core of `str.replace` (left-to-right, non-overlapping). -/
def replaceAux (pat rep : List Char) : Nat → List Char → List Char
  | 0, s => s
  | _ + 1, [] => []
  | fuel + 1, c :: rest =>
    if pat ≠ [] ∧ startsWithL pat (c :: rest) then
      rep ++ replaceAux pat rep fuel ((c :: rest).drop pat.length)
    else
      c :: replaceAux pat rep fuel rest

/-- Python `s.replace(pat, rep)` for a non-empty pattern. -/
def replaceList (pat rep s : List Char) : List Char :=
  replaceAux pat rep s.length s

/-! ## The number regex of `read_pr` -/

/-- Match the optional exponent group `(?:[eE][-+]?\d+)?` at the head of
`l`; returns the consumed characters and the remainder (consuming nothing
when the group cannot match, as the regex engine backtracks over it). -/
def matchExp : List Char → List Char × List Char
  | [] => ([], [])
  | c :: rest =>
    if c = 'e' ∨ c = 'E' then
      match rest with
      | [] => ([], c :: rest)
      | s :: rest2 =>
        if s = '+' ∨ s = '-' then
          let d := rest2.takeWhile Char.isDigit
          if d = [] then ([], c :: rest)
          else (c :: s :: d, rest2.dropWhile Char.isDigit)
        else
          let d := rest.takeWhile Char.isDigit
          if d = [] then ([], c :: rest)
          else (c :: d, rest.dropWhile Char.isDigit)
    else ([], c :: rest)

/-- Match `[-+]?\d*\.?\d+(?:[eE][-+]?\d+)?` anchored at the head of `l`,
with Python's greedy backtracking semantics; returns the matched text. -/
def matchFloat (l : List Char) : Option (List Char) :=
  let sgnSplit : List Char × List Char :=
    match l with
    | c :: rest => if c = '+' ∨ c = '-' then ([c], rest) else ([], l)
    | [] => ([], [])
  let sgn := sgnSplit.1
  let l1 := sgnSplit.2
  let d1 := l1.takeWhile Char.isDigit
  let l2 := l1.dropWhile Char.isDigit
  let core : Option (List Char × List Char) :=
    match l2 with
    | '.' :: l3 =>
      let d2 := l3.takeWhile Char.isDigit
      if d2 ≠ [] then some (d1 ++ '.' :: d2, l3.dropWhile Char.isDigit)
      else if d1 ≠ [] then some (d1, l2) else none
    | _ => if d1 ≠ [] then some (d1, l2) else none
  match core with
  | none => none
  | some (m, r) =>
    let ex := matchExp r
    some (sgn ++ m ++ ex.1)

/-- `re.search` for the number regex: leftmost match in the line. -/
def reSearch : List Char → Option (List Char)
  | [] => none
  | c :: t =>
    match matchFloat (c :: t) with
    | some m => some m
    | none => reSearch t

/-- Python `float(s)` on a literal matched by the number regex, as an exact
rational: the value is `sign * digits(ip ++ fp) * 10 ^ (ex - |fp|)`,
assembled with integer arithmetic and `mkRat`. -/
def floatVal (l : List Char) : ℚ :=
  let sgnBody : Int × List Char :=
    match l with
    | '-' :: r => (-1, r)
    | '+' :: r => (1, r)
    | _ => (1, l)
  let s := sgnBody.2
  let ip := s.takeWhile Char.isDigit
  let r1 := s.dropWhile Char.isDigit
  let fpr2 : List Char × List Char :=
    match r1 with
    | '.' :: t => (t.takeWhile Char.isDigit, t.dropWhile Char.isDigit)
    | _ => ([], r1)
  let fp := fpr2.1
  let ex : Int :=
    match fpr2.2 with
    | c :: t =>
      if c = 'e' ∨ c = 'E' then
        match t with
        | '-' :: d => - (digitsToNat (d.takeWhile Char.isDigit) : Int)
        | '+' :: d => (digitsToNat (d.takeWhile Char.isDigit) : Int)
        | d => (digitsToNat (d.takeWhile Char.isDigit) : Int)
      else 0
    | [] => 0
  let e : Int := ex - fp.length
  let base : Nat := digitsToNat (ip ++ fp)
  if 0 ≤ e then mkRat (sgnBody.1 * base * 10 ^ e.natAbs) 1
  else mkRat (sgnBody.1 * base) (10 ^ e.natAbs)

/-! ## `CaseManager.read_pr` -/

/-- The marker phrase searched for by `read_pr`. -/
def prMarker : List Char := "Total Pressure Ratio".data

/-- Outcome of `CaseManager.read_pr`: a parsed value, the implicit `None`
returned when no line contains the marker (the function falls off the end
of its loop), or the `ValueError` raised when the marker line holds no
number. -/
inductive PRResult where
  | value (q : ℚ)
  | noReturn
  | valueError
deriving DecidableEq, Repr

/-- The line loop of `read_pr`. -/
def prLoop : List (List Char) → PRResult
  | [] => .noReturn
  | line :: rest =>
    if hasSub prMarker line then
      match reSearch line with
      | some m => .value (floatVal m)
      | none => .valueError
    else prLoop rest

/-- `CaseManager.read_pr` applied to the text of the report file. -/
def read_pr (text : List Char) : PRResult :=
  prLoop (splitOnNl text)

/-! ## Filesystem model -/

/-- A directory: an association list from file names to file contents. -/
abbrev Fs : Type := List (String × List Char)

/-- Content of file `k`, if present. -/
def fsGet : Fs → String → Option (List Char)
  | [], _ => none
  | (k', v) :: t, k => if k' = k then some v else fsGet t k

/-- Write file `k` (overwriting an existing entry, like `write_text` /
`shutil.copy2`). -/
def fsSet : Fs → String → List Char → Fs
  | [], k, v => [(k, v)]
  | (k', v') :: t, k, v => if k' = k then (k, v) :: t else (k', v') :: fsSet t k v

/-- Delete file `k` if present (`unlink` guarded by `exists`, `rmtree`). -/
def fsDel : Fs → String → Fs
  | [], _ => []
  | (k', v') :: t, k => if k' = k then fsDel t k else (k', v') :: fsDel t k

/-! ## CSV writing (`csv.writer` with `newline=""`) -/

/-- Does `csv.writer` need to quote this field (QUOTE_MINIMAL)? -/
def csvQuoteNeeded (s : List Char) : Bool :=
  s.any fun c => c = ',' ∨ c = '"' ∨ c = '\n' ∨ c = '\r'

/-- One CSV field, quoted when needed, embedded quotes doubled. -/
def csvField (s : List Char) : List Char :=
  if csvQuoteNeeded s then '"' :: (replaceList ['"'] ['"', '"'] s ++ ['"'])
  else s

/-- One two-field CSV row with the default `\r\n` line terminator. -/
def csvRow (a b : List Char) : List Char :=
  csvField a ++ ',' :: (csvField b ++ ['\r', '\n'])

/-- `CaseManager.append_pr_to_csv`: opens the CSV in append mode and writes
one `(run_id, pr)` row (the flush and fsync only force durability and do
not change the resulting content). -/
def append_pr_to_csv (csv : List Char) (run_id : String) (prText : List Char) :
    List Char :=
  csv ++ csvRow run_id.data prText

/-- `make_csv_headers`: writes the header row only when the CSV file does
not exist yet (`none`); an existing file is left untouched. -/
def make_csv_headers (existing : Option (List Char)) : List Char :=
  match existing with
  | some content => content
  | none => csvRow "run_id".data "pressure_ratio".data

/-! ## `CaseManager` -/

/-- The constructor arguments of `CaseManager` that matter to the model:
the fixed artifact names inside the scratch workspace
(`solver_workdir`).  The `results_root` directory and the CSV file are the
`archive` and `csv` fields of `PipeState`. -/
structure CaseManager where
  out_filename : String
  res_filename : String
  txt_filename : String
  photo_dir_name : String
deriving DecidableEq

/-- `CaseManager.dest_out_path`: archive name for the `.out` copy. -/
def dest_out_path (cfg : RunConfig) : String := cfg.run_id ++ ".out"

/-- `CaseManager.dest_res_path`: archive name for the `.res` copy. -/
def dest_res_path (cfg : RunConfig) : String := cfg.run_id ++ ".res"

/-- `CaseManager.dest_txt_path`: archive name for the `.txt` copy. -/
def dest_txt_path (cfg : RunConfig) : String := cfg.run_id ++ ".txt"

/-- The mutable file state the pipeline touches: the scratch workspace
(`solver_workdir`), the archive (`results_root`), the cumulative CSV file,
and the remaining absolute paths (template, rendered `.pre`, matlab log),
four directories the source addresses through disjoint path roots. -/
structure PipeState where
  scratch : Fs
  archive : Fs
  csv : List Char
  world : Fs
deriving DecidableEq

/-- One constructor per raise site reachable in the modelled code:
the explicit `FileNotFoundError` of `collect_outputs` (the spec's
`MissingArtifactError`), the `FileNotFoundError` coming out of
`shutil.copy2` when the report is absent, the `ValueError` of `read_pr`
(the spec's `MetricParseError`), the two `RuntimeError`s of `run_monte`,
and the `NameError` / `FileNotFoundError` of `edit_pre`. -/
inductive PipeError where
  | missingArtifact
  | copyFileNotFound
  | metricParse
  | matlabFailed
  | solverFailed
  | templateNameError
  | templateFileNotFound
deriving DecidableEq, Repr

/-- Text written for the pressure-ratio CSV field: a parsed value is
rendered with `str(float)`; the implicit `None` is rendered as the empty
field (what `csv.writer` writes for `None`). -/
def prFieldText : PRResult → List Char
  | .value q => pyFloatStrL q
  | _ => []

/-- `CaseManager.collect_outputs`, step for step:
check `.out`/`.res` exist (else the explicit `FileNotFoundError`), copy
`.out`, `.res`, `.txt` into the archive under the `run_id` stem (the `.txt`
copy raises `shutil.copy2`'s `FileNotFoundError` when the report is
missing, after the first two copies already happened), read the pressure
ratio, append it to the CSV, then delete the four scratch artifacts.
Returns the state at the point of the raise alongside the outcome. -/
def collect_outputs (cm : CaseManager) (cfg : RunConfig) (s : PipeState) :
    PipeState × Except PipeError (String × String) :=
  match fsGet s.scratch cm.out_filename, fsGet s.scratch cm.res_filename with
  | none, _ => (s, .error .missingArtifact)
  | some _, none => (s, .error .missingArtifact)
  | some outC, some resC =>
    let s1 : PipeState :=
      { s with archive := fsSet (fsSet s.archive (dest_out_path cfg) outC)
                            (dest_res_path cfg) resC }
    match fsGet s.scratch cm.txt_filename with
    | none => (s1, .error .copyFileNotFound)
    | some txtC =>
      let s2 : PipeState :=
        { s1 with archive := fsSet s1.archive (dest_txt_path cfg) txtC }
      match read_pr txtC with
      | .valueError => (s2, .error .metricParse)
      | pr =>
        let s3 : PipeState :=
          { s2 with csv := append_pr_to_csv s2.csv cfg.run_id (prFieldText pr) }
        let cleaned : Fs :=
          fsDel (fsDel (fsDel (fsDel s3.scratch cm.out_filename)
            cm.res_filename) cm.txt_filename) cm.photo_dir_name
        let s4 : PipeState := { s3 with scratch := cleaned }
        (s4, .ok (dest_out_path cfg, dest_res_path cfg))

/-! ## `PreFileEditor.edit_pre` -/

/-- The module-level globals `edit_pre` actually depends on: the name
`template_pre_path` used on its first line resolves to the module global of
that name (which only exists when the file runs as a script), not to the
`template_path` parameter. -/
structure PyGlobals where
  template_pre_path : Option String

/-- The three token substitutions of `edit_pre`, in source order. -/
def subst_pre (text : List Char) (cfg : RunConfig) : List Char :=
  replaceList "__MASS_FLOW__".data (pyFloatStrL cfg.mass_flow)
    (replaceList "__RPM__".data (intStrL cfg.rpm)
      (replaceList "__PITCH_DEG__".data (pyFloatStrL cfg.pitch_deg) text))

/-- `PreFileEditor.edit_pre(template_path, output_pre_path, cfg)` over the
directory `files`: reads the file named by the module global
`template_pre_path` (a `NameError` when the global is unset, a
`FileNotFoundError` when that file is absent; the `template_path` argument
is never consulted), substitutes the three placeholder tokens, and writes
the result to `output_pre_path`. -/
def edit_pre (g : PyGlobals) (files : Fs)
    (template_path output_pre_path : String) (cfg : RunConfig) :
    Except PipeError Fs :=
  match g.template_pre_path with
  | none => .error .templateNameError
  | some gp =>
    match fsGet files gp with
    | none => .error .templateFileNotFound
    | some text => .ok (fsSet files output_pre_path (subst_pre text cfg))

/-! ## `run_monte` -/

/-- The external world: exit codes and log texts of the matlab and solver
invocations, and the transformation the solver batch applies to the
scratch workspace, indexed by the 0-based position of the case in the
sweep. -/
structure MonteEnv where
  matlabExit : Nat → Int
  matlabLog : Nat → List Char
  solverExit : Nat → Int
  solverLog : Nat → List Char
  scratchAfter : Nat → Fs → Fs

/-- Observable pipeline actions, tagged with the 0-based case index:
a matlab (geometry) invocation, a template render, a solver invocation
(which also writes its log into the archive), and a harvest attempt. -/
inductive MonteEvent where
  | matlab (i : Nat)
  | render (i : Nat)
  | solve (i : Nat)
  | harvestOk (i : Nat)
  | harvestErr (i : Nat)
deriving DecidableEq, Repr

/-- The case index an event belongs to. -/
def MonteEvent.idx : MonteEvent → Nat
  | .matlab i => i
  | .render i => i
  | .solve i => i
  | .harvestOk i => i
  | .harvestErr i => i

/-- The per-case loop body of `run_monte`, in source order: run matlab for
the pitch (writing `matlab.log`), abort on non-zero exit; render the
template; run the solver batch (writing the per-run `_solve.log` into the
archive and letting the solver mutate the scratch workspace), abort on
non-zero exit; harvest; recurse on the remaining sweep. -/
def runCases (env : MonteEnv) (g : PyGlobals) (cm : CaseManager)
    (template_pre_path output_pre_path matlab_log_path : String) :
    Nat → List RunConfig → PipeState →
    List MonteEvent × PipeState × Except PipeError Unit
  | _, [], s => ([], s, .ok ())
  | i, cfg :: rest, s =>
    let sA : PipeState :=
      { s with world := fsSet s.world matlab_log_path (env.matlabLog i) }
    if env.matlabExit i ≠ 0 then ([.matlab i], sA, .error .matlabFailed)
    else
      match edit_pre g sA.world template_pre_path output_pre_path cfg with
      | .error e => ([.matlab i], sA, .error e)
      | .ok w2 =>
        let sB : PipeState := { sA with world := w2 }
        let sC : PipeState :=
          { sB with
            archive := fsSet sB.archive (cfg.run_id ++ "_solve.log")
                         (env.solverLog i)
            scratch := env.scratchAfter i sB.scratch }
        if env.solverExit i ≠ 0 then
          ([.matlab i, .render i, .solve i], sC, .error .solverFailed)
        else
          match collect_outputs cm cfg sC with
          | (sD, .error e) =>
            ([.matlab i, .render i, .solve i, .harvestErr i], sD, .error e)
          | (sD, .ok _) =>
            let r := runCases env g cm template_pre_path output_pre_path
                       matlab_log_path (i + 1) rest sD
            ([.matlab i, .render i, .solve i, .harvestOk i] ++ r.1, r.2)

/-- `run_monte`: process the sweep in order starting at case index 0,
returning the event trace, the final file state and the overall outcome. -/
def run_monte (env : MonteEnv) (g : PyGlobals) (cm : CaseManager)
    (template_pre_path output_pre_path matlab_log_path : String)
    (cfgs : List RunConfig) (s : PipeState) :
    List MonteEvent × PipeState × Except PipeError Unit :=
  runCases env g cm template_pre_path output_pre_path matlab_log_path 0 cfgs s

/-- Decidable equality for `Except`, used to evaluate the model on concrete
inputs. -/
instance {ε α : Type} [DecidableEq ε] [DecidableEq α] :
    DecidableEq (Except ε α) := fun x y =>
  match x, y with
  | .error a, .error b =>
    if h : a = b then .isTrue (by rw [h])
    else .isFalse (fun hx => h (by injection hx))
  | .ok a, .ok b =>
    if h : a = b then .isTrue (by rw [h])
    else .isFalse (fun hx => h (by injection hx))
  | .error _, .ok _ => .isFalse (fun hx => by injection hx)
  | .ok _, .error _ => .isFalse (fun hx => by injection hx)

/-! ## Fixtures reused by several concrete witnesses -/

/-- The characters `pyFormatGL` can emit. -/
def gChars : List Char := '-' :: '+' :: 'e' :: '.' :: digitChars

/-- The `CaseManager` configuration of the script's main block. -/
def cmW : CaseManager :=
  { out_filename := "temp_results.out"
    res_filename := "temp_results.res"
    txt_filename := "temp_report.txt"
    photo_dir_name := "temp_report" }

/-- A concrete configuration for witnesses. -/
def cfgW : RunConfig :=
  { pitch_deg := 0, rpm := 9549, mass_flow := mkRat 2368 10000, run_id := "r1" }

/-- The example report line of the spec. -/
def reportW : List Char := "Total Pressure Ratio   1.9845e+00 (dimensionless)".data

/-- A scratch workspace holding all four artifacts, an empty archive and a
header-only CSV. -/
def sW : PipeState :=
  { scratch := [("temp_results.out", "o".data), ("temp_results.res", "r".data),
      ("temp_report.txt", reportW), ("temp_report", [])]
    archive := []
    csv := "run_id,pressure_ratio\r\n".data
    world := [] }

example : pyFormatGL 0 = ['0'] := by decide
example : String.mk (pyFormatGL (mkRat 1 10)) = "0.1" := by decide
example : String.mk (pyFormatGL 1000000) = "1e+06" := by decide
example : String.mk (pyFormatGL 1000001) = "1e+06" := by decide
example : String.mk (pyFormatGL (mkRat (-25) 10)) = "-2.5" := by decide
example : String.mk (pyFormat4fL (mkRat 2368 10000)) = "0.2368" := by decide
example : String.mk (pyFloatStrL (mkRat 31 100)) = "0.31" := by decide
example : String.mk (pyFloatStrL 4) = "4.0" := by decide
example : String.mk (pyFloatStrL (mkRat 19845 10000)) = "1.9845" := by decide
example : pyRunId 0 9549 (mkRat 2368 10000) = "p0_rpm9549_mdot0p2368" := by decide
example : read_pr "Total Pressure Ratio   1.9845e+00 (dimensionless)".data
    = .value (mkRat 19845 10000) := by decide
example : read_pr "SOLVE COMPLETE\nnothing here".data = .noReturn := by decide
example : read_pr "Total Pressure Ratio (none)".data = .valueError := by decide
example : reSearch "x -1.5e-3 y".data = some "-1.5e-3".data := by decide
example : floatVal "-1.5e-3".data = mkRat (-15) 10000 := by decide
example : String.mk (replaceList "__RPM__".data "12500".data "a __RPM__ b".data)
    = "a 12500 b" := by decide

/-! ## Lemmas: decimal digit strings -/

theorem d10_mem_digitChars (n : Nat) : d10 n ∈ digitChars := by
  unfold d10 digitChars
  split_ifs <;> decide

theorem toDig_d10 {n : Nat} (h : n < 10) : toDig (d10 n) = n := by
  interval_cases n <;> decide

theorem natDigitsAux_fuel {f1 f2 n : Nat} (h1 : n < f1) (h2 : n < f2) :
    natDigitsAux f1 n = natDigitsAux f2 n := by
  induction f1 generalizing f2 n with
  | zero => omega
  | succ f ih =>
    cases f2 with
    | zero => omega
    | succ f2' =>
      simp only [natDigitsAux]
      by_cases h : n < 10
      · simp [h]
      · have hd : n / 10 < n := Nat.div_lt_self (by omega) (by omega)
        simp only [h, if_false]
        rw [ih (show n / 10 < f by omega) (show n / 10 < f2' by omega)]

theorem natDigits_eq (n : Nat) :
    natDigits n =
      if n < 10 then [d10 n] else natDigits (n / 10) ++ [d10 (n % 10)] := by
  by_cases h : n < 10
  · simp [natDigits, natDigitsAux, h]
  · have hd : n / 10 < n := Nat.div_lt_self (by omega) (by omega)
    rw [if_neg h]
    unfold natDigits
    have e1 : natDigitsAux (n + 1) n = natDigitsAux n (n / 10) ++ [d10 (n % 10)] := by
      simp only [natDigitsAux]
      rw [if_neg h]
    rw [e1, natDigitsAux_fuel hd (Nat.lt_succ_self _)]

theorem digitsToNat_snoc (l : List Char) (c : Char) :
    digitsToNat (l ++ [c]) = 10 * digitsToNat l + toDig c := by
  simp [digitsToNat, List.foldl_append]

theorem digitsToNat_natDigits (n : Nat) : digitsToNat (natDigits n) = n := by
  induction n using Nat.strong_induction_on with
  | _ n ih =>
    rw [natDigits_eq]
    by_cases h : n < 10
    · simp [h, digitsToNat, toDig_d10 h]
    · have hd : n / 10 < n := Nat.div_lt_self (by omega) (by omega)
      rw [if_neg h, digitsToNat_snoc, ih _ hd, toDig_d10 (Nat.mod_lt _ (by omega))]
      omega

theorem natDigits_inj {a b : Nat} (h : natDigits a = natDigits b) : a = b := by
  have := congrArg digitsToNat h
  simpa [digitsToNat_natDigits] using this

theorem natDigits_mem_digitChars {c : Char} {n : Nat} (h : c ∈ natDigits n) :
    c ∈ digitChars := by
  induction n using Nat.strong_induction_on with
  | _ n ih =>
    rw [natDigits_eq] at h
    by_cases hn : n < 10
    · rw [if_pos hn] at h
      rcases List.mem_singleton.1 h with rfl
      exact d10_mem_digitChars n
    · rw [if_neg hn] at h
      have hd : n / 10 < n := Nat.div_lt_self (by omega) (by omega)
      rcases List.mem_append.1 h with h | h
      · exact ih _ hd h
      · rcases List.mem_singleton.1 h with rfl
        exact d10_mem_digitChars _

/-! ## Lemmas: integer rendering -/

theorem intStrL_chars {c : Char} {z : Int} (h : c ∈ intStrL z) :
    c ∈ '-' :: digitChars := by
  unfold intStrL at h
  split_ifs at h
  · rcases List.mem_cons.1 h with rfl | h
    · exact List.mem_cons_self _ _
    · exact List.mem_cons_of_mem _ (natDigits_mem_digitChars h)
  · exact List.mem_cons_of_mem _ (natDigits_mem_digitChars h)

theorem neg_not_mem_natDigits (n : Nat) : '-' ∉ natDigits n := by
  intro h
  have := natDigits_mem_digitChars h
  exact absurd this (by decide)

theorem intStrL_inj {a b : Int} (h : intStrL a = intStrL b) : a = b := by
  unfold intStrL at h
  split_ifs at h with ha hb hb
  · have h2 : natDigits a.natAbs = natDigits b.natAbs := by
      injection h
    have := natDigits_inj h2
    omega
  · have hm : '-' ∈ natDigits b.natAbs := by
      rw [← h]
      exact List.mem_cons_self _ _
    exact absurd hm (neg_not_mem_natDigits _)
  · have hm : '-' ∈ natDigits a.natAbs := by
      rw [h]
      exact List.mem_cons_self _ _
    exact absurd hm (neg_not_mem_natDigits _)
  · have := natDigits_inj h
    omega

/-! ## Lemmas: characters emitted by the `%g` formatter -/

theorem mem_padTo {c : Char} {k : Nat} {l : List Char} (h : c ∈ padTo k l) :
    c = '0' ∨ c ∈ l := by
  unfold padTo at h
  rcases List.mem_append.1 h with h | h
  · exact Or.inl (List.eq_of_mem_replicate h)
  · exact Or.inr h

theorem mem_stripTrailingZeros {c : Char} {l : List Char}
    (h : c ∈ stripTrailingZeros l) : c ∈ l := by
  unfold stripTrailingZeros at h
  rw [List.mem_reverse] at h
  have hsub : (l.reverse.dropWhile fun c => c = '0').Sublist l.reverse :=
    List.dropWhile_sublist _
  have := hsub.subset h
  exact List.mem_reverse.1 this

theorem mem_withDot {c : Char} {f : List Char} (h : c ∈ withDot f) :
    c = '.' ∨ c ∈ f := by
  unfold withDot at h
  split_ifs at h
  · cases h
  · rcases List.mem_cons.1 h with rfl | h
    · exact Or.inl rfl
    · exact Or.inr h

theorem gFixed_chars {sgn md : List Char} {e : Int} {c : Char}
    (hs : ∀ x ∈ sgn, x = '-') (hm : ∀ x ∈ md, x ∈ digitChars)
    (h : c ∈ gFixed sgn md e) : c ∈ gChars := by
  have hdig : c ∈ digitChars → c ∈ gChars := by
    intro hx
    simp only [gChars]
    exact List.mem_cons_of_mem _ (List.mem_cons_of_mem _
      (List.mem_cons_of_mem _ (List.mem_cons_of_mem _ hx)))
  unfold gFixed at h
  rcases List.mem_append.1 h with h | h
  · rcases List.mem_append.1 h with h | h
    · rw [hs c h]; decide
    · split_ifs at h
      · exact hdig (hm c ((List.take_sublist _ _).subset h))
      · rcases List.mem_singleton.1 h with rfl; decide
  · rcases mem_withDot h with rfl | h
    · decide
    · have h2 := mem_stripTrailingZeros h
      unfold gFracPart at h2
      split_ifs at h2
      · exact hdig (hm c ((List.drop_sublist _ _).subset h2))
      · rcases List.mem_append.1 h2 with h2 | h2
        · rw [List.eq_of_mem_replicate h2]; decide
        · exact hdig (hm c h2)

theorem gSci_chars {sgn md : List Char} {e : Int} {c : Char}
    (hs : ∀ x ∈ sgn, x = '-') (hm : ∀ x ∈ md, x ∈ digitChars)
    (h : c ∈ gSci sgn md e) : c ∈ gChars := by
  have hdig : c ∈ digitChars → c ∈ gChars := by
    intro hx
    simp only [gChars]
    exact List.mem_cons_of_mem _ (List.mem_cons_of_mem _
      (List.mem_cons_of_mem _ (List.mem_cons_of_mem _ hx)))
  unfold gSci at h
  rcases List.mem_append.1 h with h | h
  · rcases List.mem_append.1 h with h | h
    · rw [hs c h]; decide
    · rcases List.mem_append.1 h with h | h
      · exact hdig (hm c ((List.take_sublist _ _).subset h))
      · rcases mem_withDot h with rfl | h
        · decide
        · exact hdig (hm c ((List.drop_sublist _ _).subset
            (mem_stripTrailingZeros h)))
  · rcases List.mem_cons.1 h with rfl | h
    · decide
    · rcases List.mem_cons.1 h with rfl | h
      · split_ifs <;> decide
      · rcases mem_padTo h with rfl | h
        · decide
        · exact hdig (natDigits_mem_digitChars h)

theorem gBranch_chars {p : Prop} [Decidable p] {sgn md : List Char}
    {e : Int} {c : Char}
    (hs : ∀ x ∈ sgn, x = '-') (hm : ∀ x ∈ md, x ∈ digitChars)
    (h : c ∈ (if p then gFixed sgn md e else gSci sgn md e)) : c ∈ gChars := by
  split_ifs at h
  · exact gFixed_chars hs hm h
  · exact gSci_chars hs hm h

theorem pyFormatGL_chars {q : ℚ} {c : Char} (h : c ∈ pyFormatGL q) :
    c ∈ gChars := by
  by_cases h0 : q = 0
  · rw [pyFormatGL, if_pos h0] at h
    rcases List.mem_singleton.1 h with rfl
    decide
  · rw [pyFormatGL, if_neg h0] at h
    refine gBranch_chars ?_ ?_ h
    · intro x hx
      split_ifs at hx
      · exact List.mem_singleton.1 hx
      · cases hx
    · intro x hx
      rcases mem_padTo hx with rfl | hx
      · decide
      · exact natDigits_mem_digitChars hx

theorem pyFormatGL_no_p {q : ℚ} : 'p' ∉ pyFormatGL q := by
  intro h
  exact absurd (pyFormatGL_chars h) (by decide)

theorem pyFormatGL_no_us {q : ℚ} : '_' ∉ pyFormatGL q := by
  intro h
  exact absurd (pyFormatGL_chars h) (by decide)

theorem intStrL_no_p {z : Int} : 'p' ∉ intStrL z := by
  intro h
  exact absurd (intStrL_chars h) (by decide)

theorem intStrL_no_us {z : Int} : '_' ∉ intStrL z := by
  intro h
  exact absurd (intStrL_chars h) (by decide)

/-! ## Lemmas: injectivity of `run_id` assembly -/

theorem dotP_eq_us {c : Char} (h : dotP c = '_') : c = '_' := by
  unfold dotP at h
  split_ifs at h
  · cases h
  · exact h

theorem map_dotP_no_us {l : List Char} (h : '_' ∉ l) : '_' ∉ l.map dotP := by
  intro hm
  rcases List.mem_map.1 hm with ⟨a, ha, hEq⟩
  rw [dotP_eq_us hEq] at ha
  exact h ha

theorem dotP_inj_no_p {a b : Char} (ha : a ≠ 'p') (hb : b ≠ 'p')
    (h : dotP a = dotP b) : a = b := by
  unfold dotP at h
  split_ifs at h with h1 h2 h2
  · rw [h1, h2]
  · exact absurd h.symm hb
  · exact absurd h ha
  · exact h

theorem map_dotP_inj {l1 l2 : List Char} (h1 : 'p' ∉ l1) (h2 : 'p' ∉ l2)
    (h : l1.map dotP = l2.map dotP) : l1 = l2 := by
  induction l1 generalizing l2 with
  | nil =>
    cases l2 with
    | nil => rfl
    | cons b t => cases h
  | cons a t ih =>
    cases l2 with
    | nil => cases h
    | cons b t2 =>
      simp only [List.map_cons, List.cons.injEq] at h
      have hab : a = b :=
        dotP_inj_no_p (fun hx => h1 (hx ▸ List.mem_cons_self _ _))
          (fun hx => h2 (hx ▸ List.mem_cons_self _ _)) h.1
      rw [hab, ih (fun hx => h1 (List.mem_cons_of_mem _ hx))
        (fun hx => h2 (List.mem_cons_of_mem _ hx)) h.2]

theorem append_sep_inj {c : Char} {a1 a2 b1 b2 : List Char}
    (h1 : c ∉ a1) (h2 : c ∉ a2) (h : a1 ++ c :: b1 = a2 ++ c :: b2) :
    a1 = a2 ∧ b1 = b2 := by
  induction a1 generalizing a2 with
  | nil =>
    cases a2 with
    | nil => simpa using h
    | cons x t =>
      simp only [List.nil_append, List.cons_append, List.cons.injEq] at h
      exact absurd (h.1 ▸ List.mem_cons_self x t) h2
  | cons x t ih =>
    cases a2 with
    | nil =>
      simp only [List.cons_append, List.nil_append, List.cons.injEq] at h
      exact absurd (h.1.symm ▸ List.mem_cons_self x t) h1
    | cons y t2 =>
      simp only [List.cons_append, List.cons.injEq] at h
      obtain ⟨hxy, ht⟩ := h
      have := ih (fun hx => h1 (List.mem_cons_of_mem _ hx))
        (fun hx => h2 (List.mem_cons_of_mem _ hx)) ht
      exact ⟨by rw [hxy, this.1], this.2⟩

theorem pyRunId_inj {p1 p2 : ℚ} {r1 r2 : Int} {m1 m2 : ℚ}
    (h : pyRunId p1 r1 m1 = pyRunId p2 r2 m2) :
    pyFormatGL p1 = pyFormatGL p2 ∧ r1 = r2 := by
  have hd : (run_id_raw p1 r1 m1).map dotP = (run_id_raw p2 r2 m2).map dotP :=
    congrArg String.data h
  unfold run_id_raw at hd
  simp only [List.map_cons, List.map_append] at hd
  rw [show dotP 'p' = 'p' from rfl, show dotP '_' = '_' from rfl,
    show dotP 'r' = 'r' from rfl, show dotP 'm' = 'm' from rfl,
    show dotP 'd' = 'd' from rfl, show dotP 'o' = 'o' from rfl,
    show dotP 't' = 't' from rfl] at hd
  have hd1 := (List.cons.injEq _ _ _ _).mp hd |>.2
  have s1 := append_sep_inj (map_dotP_no_us pyFormatGL_no_us)
    (map_dotP_no_us pyFormatGL_no_us) hd1
  have hP : pyFormatGL p1 = pyFormatGL p2 :=
    map_dotP_inj pyFormatGL_no_p pyFormatGL_no_p s1.1
  have hd2 := s1.2
  have hd3 := (List.cons.injEq _ _ _ _).mp hd2 |>.2
  have hd4 := (List.cons.injEq _ _ _ _).mp hd3 |>.2
  have hd5 := (List.cons.injEq _ _ _ _).mp hd4 |>.2
  have s2 := append_sep_inj (map_dotP_no_us intStrL_no_us)
    (map_dotP_no_us intStrL_no_us) hd5
  have hR : r1 = r2 :=
    intStrL_inj (map_dotP_inj intStrL_no_p intStrL_no_p s2.1)
  exact ⟨hP, hR⟩

/-! ## Lemmas: structure of `build_run_configs` -/

theorem build_run_configs_ok {pa : List ℚ} {ra : List Int} {ma : List ℚ}
    (hlen : ma.length = ra.length) :
    build_run_configs pa ra ma =
      .ok (pa.flatMap fun pitch => (ra.zip ma).map fun rm =>
        { pitch_deg := pitch, rpm := rm.1, mass_flow := rm.2
          run_id := pyRunId pitch rm.1 rm.2 }) := by
  unfold build_run_configs
  rw [if_neg (show ¬ ma.length ≠ ra.length by omega)]

theorem brc_inner_length {ra : List Int} {ma : List ℚ}
    (hlen : ma.length = ra.length) (pitch : ℚ) :
    ((ra.zip ma).map fun rm =>
      ({ pitch_deg := pitch, rpm := rm.1, mass_flow := rm.2
         run_id := pyRunId pitch rm.1 rm.2 } : RunConfig)).length = ra.length := by
  simp [List.length_zip, hlen]

theorem brc_length {pa : List ℚ} {ra : List Int} {ma : List ℚ}
    (hlen : ma.length = ra.length) :
    (pa.flatMap fun pitch => (ra.zip ma).map fun rm =>
      ({ pitch_deg := pitch, rpm := rm.1, mass_flow := rm.2
         run_id := pyRunId pitch rm.1 rm.2 } : RunConfig)).length
      = pa.length * ra.length := by
  induction pa with
  | nil => simp
  | cons p t ih =>
    simp only [List.flatMap_cons, List.length_append, ih, brc_inner_length hlen,
      List.length_cons]
    rw [Nat.succ_mul]
    omega

theorem brc_getElem {pa : List ℚ} {ra : List Int} {ma : List ℚ}
    (hlen : ma.length = ra.length) (i j : Nat)
    (hi : i < pa.length) (hj : j < ra.length) :
    (pa.flatMap fun pitch => (ra.zip ma).map fun rm =>
      ({ pitch_deg := pitch, rpm := rm.1, mass_flow := rm.2
         run_id := pyRunId pitch rm.1 rm.2 } : RunConfig))[i * ra.length + j]?
      = some { pitch_deg := pa[i], rpm := ra[j], mass_flow := ma[j]
               run_id := pyRunId pa[i] ra[j] ma[j] } := by
  induction pa generalizing i with
  | nil => simp at hi
  | cons p t ih =>
    rw [List.flatMap_cons]
    have hlen1 : ((ra.zip ma).map fun rm =>
        ({ pitch_deg := p, rpm := rm.1, mass_flow := rm.2
           run_id := pyRunId p rm.1 rm.2 } : RunConfig)).length = ra.length :=
      brc_inner_length hlen p
    cases i with
    | zero =>
      simp only [Nat.zero_mul, Nat.zero_add]
      rw [List.getElem?_append, if_pos (by rw [hlen1]; omega)]
      rw [List.getElem?_map]
      have hz : (ra.zip ma)[j]? = some (ra[j], ma[j]) := by
        rw [List.getElem?_zip_eq_some]
        exact ⟨List.getElem?_eq_getElem hj, List.getElem?_eq_getElem (by omega)⟩
      rw [hz]
      rfl
    | succ i' =>
      rw [List.getElem?_append, if_neg (by rw [hlen1]; rw [Nat.succ_mul]; omega)]
      rw [hlen1]
      have harith : (i' + 1) * ra.length + j - ra.length = i' * ra.length + j := by
        rw [Nat.succ_mul]
        omega
      rw [harith]
      exact ih i' (by simpa using hi)

theorem brc_map_pairKey {pa : List ℚ} {ra : List Int} {ma : List ℚ}
    (hlen : ma.length = ra.length) :
    (pa.flatMap fun pitch => (ra.zip ma).map fun rm =>
      ({ pitch_deg := pitch, rpm := rm.1, mass_flow := rm.2
         run_id := pyRunId pitch rm.1 rm.2 } : RunConfig)).map
        (fun c => (pyFormatGL c.pitch_deg, c.rpm))
      = pa.flatMap fun pitch => ra.map fun r => (pyFormatGL pitch, r) := by
  induction pa with
  | nil => simp
  | cons p t ih =>
    simp only [List.flatMap_cons, List.map_append, ih]
    congr 1
    rw [List.map_map]
    have : ((fun c => (pyFormatGL c.pitch_deg, c.rpm)) ∘ fun rm =>
        ({ pitch_deg := p, rpm := rm.1, mass_flow := rm.2
           run_id := pyRunId p rm.1 rm.2 } : RunConfig))
        = (fun r => (pyFormatGL p, r)) ∘ Prod.fst := rfl
    rw [this, ← List.map_map]
    rw [List.map_fst_zip ra ma (by omega)]

theorem brc_mem_form {pa : List ℚ} {ra : List Int} {ma : List ℚ}
    {c : RunConfig}
    (hm : c ∈ pa.flatMap fun pitch => (ra.zip ma).map fun rm =>
      ({ pitch_deg := pitch, rpm := rm.1, mass_flow := rm.2
         run_id := pyRunId pitch rm.1 rm.2 } : RunConfig)) :
    c.run_id = pyRunId c.pitch_deg c.rpm c.mass_flow := by
  rcases List.mem_flatMap.1 hm with ⟨p, _, hin⟩
  rcases List.mem_map.1 hin with ⟨rm, _, rfl⟩
  rfl

/-! ## Claim C9 -/

/-- C9: for every pair of speed and mass_flow lists of differing lengths
and any pitch list, `build_run_configs` fails with the configuration error
(`ValueError` in the source) before any `RunConfig` is produced. -/
theorem build_run_configs_length_mismatch (pa : List ℚ) (ra : List Int)
    (ma : List ℚ) (h : ma.length ≠ ra.length) :
    build_run_configs pa ra ma = .error .lengthMismatch := by
  unfold build_run_configs
  rw [if_pos h]

/-- C9 witness: two speeds and three mass flows. -/
theorem build_run_configs_length_mismatch_witness :
    ([mkRat 2478 10000, mkRat 2604 10000, mkRat 2728 10000] : List ℚ).length
      ≠ ([10000, 10500] : List Int).length ∧
    build_run_configs [0] [10000, 10500]
        [mkRat 2478 10000, mkRat 2604 10000, mkRat 2728 10000]
      = .error .lengthMismatch :=
  ⟨by decide,
   build_run_configs_length_mismatch [0] [10000, 10500]
     [mkRat 2478 10000, mkRat 2604 10000, mkRat 2728 10000] (by decide)⟩

/-! ## Claim C1 -/

/-- C1 counterexample: the pitches 1000000.0 and 1000001.0 are distinct and
the (pitch, speed) combinations are pairwise distinct, yet both pitches
render as "1e+06" under `%g` (six significant digits), so the two run_ids
coincide; the claim's distinctness conclusion fails. -/
theorem build_run_configs_run_id_collision :
    ((1000000 : ℚ) ≠ 1000001) ∧
    (build_run_configs [1000000, 1000001] [1] [mkRat 1 10]).map
        (List.map RunConfig.run_id)
      = .ok ["p1e+06_rpm1_mdot0p1000", "p1e+06_rpm1_mdot0p1000"] :=
  ⟨by decide, by rfl⟩

/-- C1 (amended): for equal-length speed/mass_flow lists,
`build_run_configs` returns exactly `pa.length * ra.length` configurations,
in order with pitch varying in the outer loop; the `run_id` fields are
pairwise distinct provided the (`%g`-formatted pitch, speed) combinations
are pairwise distinct (distinctness of the raw (pitch, speed) pairs is not
sufficient because `%g` rounds to six significant digits). -/
theorem build_run_configs_spec (pa : List ℚ) (ra : List Int) (ma : List ℚ)
    (cfgs : List RunConfig)
    (hlen : ma.length = ra.length)
    (hok : build_run_configs pa ra ma = .ok cfgs)
    (hdist : (pa.flatMap fun pitch => ra.map fun r =>
      (pyFormatGL pitch, r)).Pairwise Ne) :
    cfgs.length = pa.length * ra.length ∧
    (∀ i j, (hi : i < pa.length) → (hj : j < ra.length) →
      cfgs[i * ra.length + j]?
        = some { pitch_deg := pa[i], rpm := ra[j], mass_flow := ma[j]
                 run_id := pyRunId pa[i] ra[j] ma[j] }) ∧
    (cfgs.map RunConfig.run_id).Pairwise Ne := by
  have hbody := @build_run_configs_ok pa ra ma hlen
  rw [hok] at hbody
  have hc : cfgs = pa.flatMap fun pitch => (ra.zip ma).map fun rm =>
      ({ pitch_deg := pitch, rpm := rm.1, mass_flow := rm.2
         run_id := pyRunId pitch rm.1 rm.2 } : RunConfig) := by
    injection hbody
  subst hc
  refine ⟨brc_length hlen, fun i j hi hj => brc_getElem hlen i j hi hj, ?_⟩
  have h1 := hdist
  rw [← brc_map_pairKey hlen] at h1
  rw [List.pairwise_map] at h1 ⊢
  refine h1.imp_of_mem ?_
  intro a b ha hb hne heq
  apply hne
  have hfa := brc_mem_form ha
  have hfb := brc_mem_form hb
  rw [hfa, hfb] at heq
  have := pyRunId_inj heq
  rw [this.1, this.2]

/-- C1 witness: the sweep of the script's own arrays (one pitch, two
speeds) satisfies the amended hypotheses and yields distinct run_ids. -/
theorem build_run_configs_spec_witness :
    build_run_configs [0] [9549, 10931] [mkRat 2368 10000, mkRat 2711 10000]
      = .ok [{ pitch_deg := 0, rpm := 9549, mass_flow := mkRat 2368 10000
               run_id := "p0_rpm9549_mdot0p2368" },
             { pitch_deg := 0, rpm := 10931, mass_flow := mkRat 2711 10000
               run_id := "p0_rpm10931_mdot0p2711" }] ∧
    (([{ pitch_deg := 0, rpm := 9549, mass_flow := mkRat 2368 10000
         run_id := "p0_rpm9549_mdot0p2368" },
       { pitch_deg := 0, rpm := 10931, mass_flow := mkRat 2711 10000
         run_id := "p0_rpm10931_mdot0p2711" }] : List RunConfig).map
      RunConfig.run_id).Pairwise Ne :=
  ⟨by rfl,
   (build_run_configs_spec [0] [9549, 10931]
     [mkRat 2368 10000, mkRat 2711 10000] _
     (by decide) (by rfl) (by decide)).2.2⟩

/-! ## Claim C4 -/

theorem prLoop_no_marker {L : List (List Char)}
    (h : ∀ l ∈ L, hasSub prMarker l = false) : prLoop L = .noReturn := by
  induction L with
  | nil => rfl
  | cons l t ih =>
    unfold prLoop
    rw [if_neg (by simp [h l (List.mem_cons_self _ _)])]
    exact ih fun x hx => h x (List.mem_cons_of_mem _ hx)

/-- C4 (code divergence): for every report in which no line contains the
marker "Total Pressure Ratio", `read_pr` silently returns Python's implicit
`None` (the loop falls off the end) instead of raising the parse error the
spec calls `MetricParseError`; a marker line without a numeric token does
raise (`ValueError`), but the no-marker case does not. -/
theorem read_pr_no_marker_returns_none (text : List Char)
    (h : ∀ l ∈ splitOnNl text, hasSub prMarker l = false) :
    read_pr text = .noReturn := by
  unfold read_pr
  exact prLoop_no_marker h

/-- C4 witness: a report without the marker makes `read_pr` return `None`
(and, for contrast, a marker line without a number does raise). -/
theorem read_pr_no_marker_returns_none_witness :
    (∀ l ∈ splitOnNl "SOLVE FINISHED\nresiduals converged".data,
      hasSub prMarker l = false) ∧
    read_pr "SOLVE FINISHED\nresiduals converged".data = .noReturn ∧
    read_pr "Total Pressure Ratio (no value)".data = .valueError :=
  ⟨by decide,
   read_pr_no_marker_returns_none _ (by decide),
   by rfl⟩

/-! ## Claim C8 -/

/-- C8 counterexample: the first marker line of this report holds no
number, so `read_pr` raises even though a later line contains the marker
followed by the decimal number 2.5; the claim as stated would require the
value 2.5 to be returned. -/
theorem read_pr_first_marker_line_shadows :
    splitOnNl "Total Pressure Ratio pending\nTotal Pressure Ratio 2.5".data
      = ["Total Pressure Ratio pending".data,
         "Total Pressure Ratio 2.5".data] ∧
    hasSub prMarker "Total Pressure Ratio 2.5".data = true ∧
    reSearch "Total Pressure Ratio 2.5".data = some "2.5".data ∧
    floatVal "2.5".data = mkRat 25 10 ∧
    read_pr "Total Pressure Ratio pending\nTotal Pressure Ratio 2.5".data
      = .valueError :=
  ⟨by rfl, by rfl, by rfl, by decide, by rfl⟩

/-- C8 (amended): for every report whose FIRST marker-containing line has a
floating-point-looking substring, `read_pr` returns the value of the
leftmost such substring on that line (earlier lines without the marker are
skipped); reports whose first marker line lacks a number raise instead,
even if a later marker line has one. -/
theorem read_pr_extracts_first_match (text : List Char)
    (pre post : List (List Char)) (line m : List Char)
    (hsplit : splitOnNl text = pre ++ line :: post)
    (hpre : ∀ l ∈ pre, hasSub prMarker l = false)
    (hline : hasSub prMarker line = true)
    (hm : reSearch line = some m) :
    read_pr text = .value (floatVal m) := by
  have hgoal : ∀ pre2 : List (List Char),
      (∀ l ∈ pre2, hasSub prMarker l = false) →
      prLoop (pre2 ++ line :: post) = .value (floatVal m) := by
    intro pre2 hpre2
    induction pre2 with
    | nil =>
      rw [List.nil_append]
      simp [prLoop, hline, hm]
    | cons l t ih =>
      rw [List.cons_append]
      simp only [prLoop]
      rw [if_neg (by simp [hpre2 l (List.mem_cons_self _ _)])]
      exact ih fun x hx => hpre2 x (List.mem_cons_of_mem _ hx)
  unfold read_pr
  rw [hsplit]
  exact hgoal pre hpre

/-- C8 witness: the spec's example line yields the metric 1.9845. -/
theorem read_pr_extracts_first_match_witness :
    splitOnNl reportW = [] ++ reportW :: [] ∧
    hasSub prMarker reportW = true ∧
    reSearch reportW = some "1.9845e+00".data ∧
    floatVal "1.9845e+00".data = mkRat 19845 10000 ∧
    read_pr reportW = .value (floatVal "1.9845e+00".data) :=
  ⟨by rfl, by rfl, by rfl, by decide,
   read_pr_extracts_first_match reportW [] [] reportW "1.9845e+00".data
     (by rfl) (by simp) (by rfl) (by rfl)⟩

/-! ## Claim C5 -/

/-- C5 (code divergence): `edit_pre` never consults its `template_path`
argument.  Its first line reads the module global `template_pre_path`
(pointing at file "G" here), so calling it with the argument "A" renders
G's content, not A's; with the global unset (module imported rather than
run as a script) the call raises `NameError`.  The token substitution
itself does replace all three placeholders with the parameter renderings
("4.0", "12500", "0.31" for pitch 4, speed 12500, mass_flow 0.31), leaving
no residual tokens. -/
theorem edit_pre_ignores_template_path_argument :
    (edit_pre { template_pre_path := some "G" }
        [("G", "p=__PITCH_DEG__ r=__RPM__ m=__MASS_FLOW__".data),
         ("A", "arg __RPM__ only".data)] "A" "O"
        { pitch_deg := 4, rpm := 12500, mass_flow := mkRat 31 100
          run_id := "t" }).map (fun fs => fsGet fs "O")
      = .ok (some "p=4.0 r=12500 m=0.31".data) ∧
    subst_pre "arg __RPM__ only".data
        { pitch_deg := 4, rpm := 12500, mass_flow := mkRat 31 100
          run_id := "t" }
      = "arg 12500 only".data ∧
    edit_pre { template_pre_path := none }
        [("G", "p=__PITCH_DEG__ r=__RPM__ m=__MASS_FLOW__".data),
         ("A", "arg __RPM__ only".data)] "A" "O"
        { pitch_deg := 4, rpm := 12500, mass_flow := mkRat 31 100
          run_id := "t" }
      = .error .templateNameError :=
  ⟨by rfl, by rfl, by rfl⟩

/-! ## Lemmas: the directory model -/

theorem fsGet_set_self (fs : Fs) (k : String) (v : List Char) :
    fsGet (fsSet fs k v) k = some v := by
  induction fs with
  | nil => simp [fsSet, fsGet]
  | cons e t ih =>
    unfold fsSet
    by_cases h : e.1 = k
    · simp [h, fsGet]
    · simp [h, fsGet, ih]

theorem fsGet_set_ne (fs : Fs) {k k' : String} (v : List Char)
    (h : k' ≠ k) : fsGet (fsSet fs k v) k' = fsGet fs k' := by
  have hkk : ¬ k = k' := fun hx => h hx.symm
  induction fs with
  | nil => simp [fsSet, fsGet, hkk]
  | cons e t ih =>
    unfold fsSet
    by_cases he : e.1 = k
    · rw [if_pos he]
      unfold fsGet
      rw [if_neg hkk, if_neg (by rw [he]; exact hkk)]
    · rw [if_neg he]
      unfold fsGet
      by_cases he2 : e.1 = k'
      · rw [if_pos he2, if_pos he2]
      · rw [if_neg he2, if_neg he2, ih]

theorem fsGet_del_self (fs : Fs) (k : String) :
    fsGet (fsDel fs k) k = none := by
  induction fs with
  | nil => simp [fsDel, fsGet]
  | cons e t ih =>
    unfold fsDel
    by_cases h : e.1 = k
    · simp [h, ih]
    · simp [h, fsGet, ih]

theorem fsGet_del_none (fs : Fs) {k k' : String}
    (h : fsGet fs k' = none) : fsGet (fsDel fs k) k' = none := by
  induction fs with
  | nil => simp [fsDel, fsGet]
  | cons e t ih =>
    unfold fsGet at h
    by_cases he : e.1 = k'
    · rw [if_pos he] at h
      cases h
    · rw [if_neg he] at h
      unfold fsDel
      by_cases hk : e.1 = k
      · simp [hk, ih h]
      · simp [hk, fsGet, he, ih h]

theorem string_append_inj_right {a s t : String} (h : a ++ s = a ++ t) :
    s = t := by
  have hd := congrArg String.data h
  rw [String.data_append, String.data_append] at hd
  exact String.ext (List.append_cancel_left hd)

theorem dest_out_ne_res (cfg : RunConfig) :
    dest_out_path cfg ≠ dest_res_path cfg := by
  intro h
  have := string_append_inj_right h
  exact absurd (congrArg String.data this) (by decide)

theorem dest_out_ne_txt (cfg : RunConfig) :
    dest_out_path cfg ≠ dest_txt_path cfg := by
  intro h
  have := string_append_inj_right h
  exact absurd (congrArg String.data this) (by decide)

theorem dest_res_ne_txt (cfg : RunConfig) :
    dest_res_path cfg ≠ dest_txt_path cfg := by
  intro h
  have := string_append_inj_right h
  exact absurd (congrArg String.data this) (by decide)

/-! ## Claim C3 -/

/-- C3: when the named output or result file is absent from the scratch
workspace, `collect_outputs` raises the explicit `FileNotFoundError` (the
spec's `MissingArtifactError`) and leaves the whole state, in particular
the cumulative CSV, unchanged. -/
theorem collect_outputs_missing_artifact (cm : CaseManager) (cfg : RunConfig)
    (s : PipeState)
    (h : fsGet s.scratch cm.out_filename = none ∨
         fsGet s.scratch cm.res_filename = none) :
    collect_outputs cm cfg s = (s, .error .missingArtifact) := by
  unfold collect_outputs
  rcases h with h | h
  · rw [h]
  · cases hout : fsGet s.scratch cm.out_filename with
    | none => rfl
    | some oc => rw [h]

/-- C3 witness: a scratch workspace missing the result file. -/
theorem collect_outputs_missing_artifact_witness :
    fsGet ([("temp_results.out", "o".data)] : Fs) "temp_results.res" = none ∧
    collect_outputs cmW cfgW
        ⟨[("temp_results.out", "o".data)], [],
          "run_id,pressure_ratio\r\n".data, []⟩
      = (⟨[("temp_results.out", "o".data)], [],
          "run_id,pressure_ratio\r\n".data, []⟩,
         .error .missingArtifact) :=
  ⟨by rfl,
   collect_outputs_missing_artifact cmW cfgW
     ⟨[("temp_results.out", "o".data)], [],
       "run_id,pressure_ratio\r\n".data, []⟩ (Or.inr (by rfl))⟩

/-! ## Claim C10 -/

/-- C10: with the output and result files present but the text report
absent, `collect_outputs` raises `shutil.copy2`'s `FileNotFoundError` (not
the explicit missing-artifact error) only after the output and result
copies already happened: the archive ends up holding the two new files
named with the `run_id` stem even though the harvest failed, and the CSV
is unchanged. -/
theorem collect_outputs_missing_report (cm : CaseManager) (cfg : RunConfig)
    (s : PipeState) (oc rc : List Char)
    (ho : fsGet s.scratch cm.out_filename = some oc)
    (hr : fsGet s.scratch cm.res_filename = some rc)
    (ht : fsGet s.scratch cm.txt_filename = none) :
    collect_outputs cm cfg s
      = ({ s with
            archive := fsSet (fsSet s.archive (dest_out_path cfg) oc)
                         (dest_res_path cfg) rc },
         .error .copyFileNotFound) ∧
    fsGet (collect_outputs cm cfg s).1.archive (dest_out_path cfg)
      = some oc ∧
    fsGet (collect_outputs cm cfg s).1.archive (dest_res_path cfg)
      = some rc ∧
    (collect_outputs cm cfg s).1.csv = s.csv := by
  have h1 : collect_outputs cm cfg s
      = ({ s with
            archive := fsSet (fsSet s.archive (dest_out_path cfg) oc)
                         (dest_res_path cfg) rc },
         .error .copyFileNotFound) := by
    unfold collect_outputs
    rw [ho, hr, ht]
  refine ⟨h1, ?_, ?_, ?_⟩
  · rw [h1]
    rw [fsGet_set_ne _ _ (dest_out_ne_res cfg)]
    exact fsGet_set_self _ _ _
  · rw [h1]
    exact fsGet_set_self _ _ _
  · rw [h1]

/-- C10 witness: the fixture scratch without its report file. -/
theorem collect_outputs_missing_report_witness :
    fsGet ([("temp_results.out", "o".data), ("temp_results.res", "r".data)]
        : Fs) "temp_report.txt" = none ∧
    fsGet (collect_outputs cmW cfgW
        ⟨[("temp_results.out", "o".data), ("temp_results.res", "r".data)],
          [], "run_id,pressure_ratio\r\n".data, []⟩).1.archive "r1.out"
      = some "o".data ∧
    (collect_outputs cmW cfgW
        ⟨[("temp_results.out", "o".data), ("temp_results.res", "r".data)],
          [], "run_id,pressure_ratio\r\n".data, []⟩).2
      = .error .copyFileNotFound :=
  ⟨by rfl,
   (collect_outputs_missing_report cmW cfgW
     ⟨[("temp_results.out", "o".data), ("temp_results.res", "r".data)],
       [], "run_id,pressure_ratio\r\n".data, []⟩ "o".data "r".data
     (by rfl) (by rfl) (by rfl)).2.1,
   by rfl⟩

/-! ## Claim C7 -/

/-- C7: the CSV is append-only.  `make_csv_headers` leaves an existing file
byte-identical (and writes exactly the header row when the file does not
exist), `append_pr_to_csv` preserves every existing byte as a prefix, and
`collect_outputs` never truncates or rewrites the CSV either. -/
theorem csv_append_only :
    make_csv_headers none = csvRow "run_id".data "pressure_ratio".data ∧
    (∀ c : List Char, make_csv_headers (some c) = c) ∧
    (∀ (csv : List Char) (rid : String) (pr : List Char),
      (append_pr_to_csv csv rid pr).take csv.length = csv) ∧
    (∀ (cm : CaseManager) (cfg : RunConfig) (s : PipeState),
      ((collect_outputs cm cfg s).1.csv).take s.csv.length = s.csv) := by
  refine ⟨rfl, fun c => rfl, fun csv rid pr => List.take_left _ _,
    fun cm cfg s => ?_⟩
  unfold collect_outputs
  cases h1 : fsGet s.scratch cm.out_filename with
  | none => exact List.take_length _
  | some oc =>
    cases h2 : fsGet s.scratch cm.res_filename with
    | none => exact List.take_length _
    | some rc =>
      cases h3 : fsGet s.scratch cm.txt_filename with
      | none => exact List.take_length _
      | some tc =>
        dsimp only
        cases h4 : read_pr tc with
        | value q => exact List.take_left _ _
        | noReturn => exact List.take_left _ _
        | valueError => exact List.take_length _

/-! ## Claim C2 -/

theorem collect_outputs_ok_eq (cm : CaseManager) (cfg : RunConfig)
    (s : PipeState) (oc rc tc : List Char)
    (ho : fsGet s.scratch cm.out_filename = some oc)
    (hr : fsGet s.scratch cm.res_filename = some rc)
    (ht : fsGet s.scratch cm.txt_filename = some tc)
    (hpr : read_pr tc ≠ .valueError) :
    collect_outputs cm cfg s
      = (⟨fsDel (fsDel (fsDel (fsDel s.scratch cm.out_filename)
            cm.res_filename) cm.txt_filename) cm.photo_dir_name,
          fsSet (fsSet (fsSet s.archive (dest_out_path cfg) oc)
            (dest_res_path cfg) rc) (dest_txt_path cfg) tc,
          s.csv ++ csvRow cfg.run_id.data (prFieldText (read_pr tc)),
          s.world⟩,
         .ok (dest_out_path cfg, dest_res_path cfg)) := by
  unfold collect_outputs
  rw [ho, hr, ht]
  dsimp only
  cases hpr2 : read_pr tc with
  | valueError => exact absurd hpr2 hpr
  | value q => rfl
  | noReturn => rfl

theorem collect_outputs_metric_error_eq (cm : CaseManager) (cfg : RunConfig)
    (s : PipeState) (oc rc tc : List Char)
    (ho : fsGet s.scratch cm.out_filename = some oc)
    (hr : fsGet s.scratch cm.res_filename = some rc)
    (ht : fsGet s.scratch cm.txt_filename = some tc)
    (hpr : read_pr tc = .valueError) :
    (collect_outputs cm cfg s).2 = .error .metricParse := by
  unfold collect_outputs
  rw [ho, hr, ht]
  dsimp only
  rw [hpr]

/-- C2: when harvesting completes without exception from a scratch
workspace holding the four named artifacts and the archive does not yet
hold the three destination names, afterwards the scratch workspace holds
none of the four artifact names, the archive holds exactly the three new
files whose filename stem is the `run_id` (all other archive entries
unchanged), and the CSV is the old content with exactly one row appended
at the end, all prior bytes unchanged. -/
theorem collect_outputs_success_effects (cm : CaseManager) (cfg : RunConfig)
    (s : PipeState) (oc rc tc pc : List Char) (res : String × String)
    (ho : fsGet s.scratch cm.out_filename = some oc)
    (hr : fsGet s.scratch cm.res_filename = some rc)
    (ht : fsGet s.scratch cm.txt_filename = some tc)
    (hp : fsGet s.scratch cm.photo_dir_name = some pc)
    (haO : fsGet s.archive (dest_out_path cfg) = none)
    (haR : fsGet s.archive (dest_res_path cfg) = none)
    (haT : fsGet s.archive (dest_txt_path cfg) = none)
    (hok : (collect_outputs cm cfg s).2 = .ok res) :
    fsGet (collect_outputs cm cfg s).1.scratch cm.out_filename = none ∧
    fsGet (collect_outputs cm cfg s).1.scratch cm.res_filename = none ∧
    fsGet (collect_outputs cm cfg s).1.scratch cm.txt_filename = none ∧
    fsGet (collect_outputs cm cfg s).1.scratch cm.photo_dir_name = none ∧
    fsGet (collect_outputs cm cfg s).1.archive (dest_out_path cfg)
      = some oc ∧
    fsGet (collect_outputs cm cfg s).1.archive (dest_res_path cfg)
      = some rc ∧
    fsGet (collect_outputs cm cfg s).1.archive (dest_txt_path cfg)
      = some tc ∧
    (∀ k : String, k ≠ dest_out_path cfg → k ≠ dest_res_path cfg →
      k ≠ dest_txt_path cfg →
      fsGet (collect_outputs cm cfg s).1.archive k = fsGet s.archive k) ∧
    (∃ prText : List Char,
      (collect_outputs cm cfg s).1.csv
        = s.csv ++ csvRow cfg.run_id.data prText) := by
  have hpr : read_pr tc ≠ .valueError := by
    intro hveq
    rw [collect_outputs_metric_error_eq cm cfg s oc rc tc ho hr ht hveq] at hok
    cases hok
  have hc := collect_outputs_ok_eq cm cfg s oc rc tc ho hr ht hpr
  rw [hc]
  refine ⟨?_, ?_, ?_, ?_, ?_, ?_, ?_, ?_, ⟨prFieldText (read_pr tc), rfl⟩⟩
  · exact fsGet_del_none _ (fsGet_del_none _ (fsGet_del_none _
      (fsGet_del_self _ _)))
  · exact fsGet_del_none _ (fsGet_del_none _ (fsGet_del_self _ _))
  · exact fsGet_del_none _ (fsGet_del_self _ _)
  · exact fsGet_del_self _ _
  · rw [fsGet_set_ne _ _ (dest_out_ne_txt cfg),
      fsGet_set_ne _ _ (dest_out_ne_res cfg)]
    exact fsGet_set_self _ _ _
  · rw [fsGet_set_ne _ _ (dest_res_ne_txt cfg)]
    exact fsGet_set_self _ _ _
  · exact fsGet_set_self _ _ _
  · intro k hk1 hk2 hk3
    rw [fsGet_set_ne _ _ hk3, fsGet_set_ne _ _ hk2, fsGet_set_ne _ _ hk1]

/-- C2 witness: a full concrete harvest of the fixture workspace; the
appended row is "r1,1.9845". -/
theorem collect_outputs_success_effects_witness :
    (collect_outputs cmW cfgW sW).2 = .ok ("r1.out", "r1.res") ∧
    fsGet (collect_outputs cmW cfgW sW).1.scratch "temp_results.out"
      = none ∧
    fsGet (collect_outputs cmW cfgW sW).1.archive "r1.txt" = some reportW ∧
    (collect_outputs cmW cfgW sW).1.csv
      = "run_id,pressure_ratio\r\nr1,1.9845\r\n".data :=
  ⟨by rfl,
   (collect_outputs_success_effects cmW cfgW sW "o".data "r".data reportW []
     ("r1.out", "r1.res") (by rfl) (by rfl) (by rfl) (by rfl) (by rfl)
     (by rfl) (by rfl) (by rfl)).1,
   (collect_outputs_success_effects cmW cfgW sW "o".data "r".data reportW []
     ("r1.out", "r1.res") (by rfl) (by rfl) (by rfl) (by rfl) (by rfl)
     (by rfl) (by rfl) (by rfl)).2.2.2.2.2.2.1,
   by rfl⟩

/-! ## Lemmas: the `run_monte` event trace -/

theorem runCases_idx_bounds (env : MonteEnv) (g : PyGlobals)
    (cm : CaseManager) (tp op ml : String) :
    ∀ (cfgs : List RunConfig) (n : Nat) (s : PipeState),
      ∀ ev ∈ (runCases env g cm tp op ml n cfgs s).1,
        n ≤ ev.idx ∧ ev.idx < n + cfgs.length := by
  intro cfgs
  induction cfgs with
  | nil =>
    intro n s ev hev
    simp [runCases] at hev
  | cons cfg rest ih =>
    intro n s ev hev
    simp only [runCases] at hev
    split at hev
    · simp at hev
      subst hev
      simp only [MonteEvent.idx, List.length_cons]
      omega
    · split at hev
      · simp at hev
        subst hev
        simp only [MonteEvent.idx, List.length_cons]
        omega
      · split at hev
        · simp at hev
          rcases hev with rfl | rfl | rfl <;>
            (simp only [MonteEvent.idx, List.length_cons]; omega)
        · split at hev
          · simp at hev
            rcases hev with rfl | rfl | rfl | rfl <;>
              (simp only [MonteEvent.idx, List.length_cons]; omega)
          · simp at hev
            rcases hev with rfl | rfl | rfl | rfl | hmem
            · simp only [MonteEvent.idx, List.length_cons]; omega
            · simp only [MonteEvent.idx, List.length_cons]; omega
            · simp only [MonteEvent.idx, List.length_cons]; omega
            · simp only [MonteEvent.idx, List.length_cons]; omega
            · have hb := ih (n + 1) _ ev hmem
              simp only [List.length_cons]
              omega

theorem runCases_earlier_exit_zero (env : MonteEnv) (g : PyGlobals)
    (cm : CaseManager) (tp op ml : String) :
    ∀ (cfgs : List RunConfig) (n : Nat) (s : PipeState),
      ∀ ev ∈ (runCases env g cm tp op ml n cfgs s).1,
        ∀ k, n ≤ k → k < ev.idx →
          env.matlabExit k = 0 ∧ env.solverExit k = 0 := by
  intro cfgs
  induction cfgs with
  | nil =>
    intro n s ev hev
    simp [runCases] at hev
  | cons cfg rest ih =>
    intro n s ev hev k hnk hk
    simp only [runCases] at hev
    split at hev
    · simp at hev
      subst hev
      simp only [MonteEvent.idx] at hk
      exact absurd hnk (by omega)
    · split at hev
      · simp at hev
        subst hev
        simp only [MonteEvent.idx] at hk
        exact absurd hnk (by omega)
      · split at hev
        · simp at hev
          rcases hev with rfl | rfl | rfl <;>
            (simp only [MonteEvent.idx] at hk; exact absurd hnk (by omega))
        · split at hev
          · simp at hev
            rcases hev with rfl | rfl | rfl | rfl <;>
              (simp only [MonteEvent.idx] at hk; exact absurd hnk (by omega))
          · rename_i hm hs _ _
            simp at hev
            rcases hev with rfl | rfl | rfl | rfl | hmem
            · simp only [MonteEvent.idx] at hk
              exact absurd hnk (by omega)
            · simp only [MonteEvent.idx] at hk
              exact absurd hnk (by omega)
            · simp only [MonteEvent.idx] at hk
              exact absurd hnk (by omega)
            · simp only [MonteEvent.idx] at hk
              exact absurd hnk (by omega)
            · rcases Nat.eq_or_lt_of_le hnk with rfl | hlt
              · exact ⟨by omega, by omega⟩
              · exact ih (n + 1) _ ev hmem k (by omega) hk

theorem runCases_harvestErr_latest (env : MonteEnv) (g : PyGlobals)
    (cm : CaseManager) (tp op ml : String) :
    ∀ (cfgs : List RunConfig) (n : Nat) (s : PipeState) (k : Nat)
      (T : List MonteEvent),
      (runCases env g cm tp op ml n cfgs s).1 = T →
      MonteEvent.harvestErr k ∈ T →
      ∀ ev ∈ T, ev.idx ≤ k := by
  intro cfgs
  induction cfgs with
  | nil =>
    intro n s k T hT hk ev hev
    simp only [runCases] at hT
    subst hT
    simp at hk
  | cons cfg rest ih =>
    intro n s k T hT hk ev hev
    simp only [runCases] at hT
    split at hT
    · subst hT
      simp at hk
    · split at hT
      · subst hT
        simp at hk
      · split at hT
        · subst hT
          simp at hk
        · split at hT
          · subst hT
            simp at hk
            subst hk
            simp at hev
            rcases hev with rfl | rfl | rfl | rfl <;>
              (simp only [MonteEvent.idx]; omega)
          · subst hT
            simp at hk hev
            have hkn := (runCases_idx_bounds env g cm tp op ml rest (n + 1)
              _ _ hk).1
            simp only [MonteEvent.idx] at hkn
            rcases hev with rfl | rfl | rfl | rfl | hmem
            · simp only [MonteEvent.idx]; omega
            · simp only [MonteEvent.idx]; omega
            · simp only [MonteEvent.idx]; omega
            · simp only [MonteEvent.idx]; omega
            · exact ih (n + 1) _ k _ rfl hk ev hmem

/-! ## Claim C6 -/

/-- C6: fail-fast.  If the geometry (matlab) invocation or the solver
invocation of case `i` exits non-zero, or its harvest raises, then
`run_monte` processes no later configuration: the event trace contains no
geometry run, template render, solver run or harvest attempt for any index
`j > i` (archive entries and CSV rows are written only inside the solve
and harvest steps of their own case, so none occur for later
configurations either). -/
theorem run_monte_fail_fast (env : MonteEnv) (g : PyGlobals)
    (cm : CaseManager) (tp op ml : String) (cfgs : List RunConfig)
    (s : PipeState) (i j : Nat)
    (hfail : env.matlabExit i ≠ 0 ∨ env.solverExit i ≠ 0 ∨
      MonteEvent.harvestErr i ∈ (run_monte env g cm tp op ml cfgs s).1)
    (hij : i < j) :
    ∀ ev ∈ (run_monte env g cm tp op ml cfgs s).1, ev.idx ≠ j := by
  intro ev hev hj
  rcases hfail with h | h | h
  · have hz := runCases_earlier_exit_zero env g cm tp op ml cfgs 0 s ev hev i
      (Nat.zero_le i) (by omega)
    exact h hz.1
  · have hz := runCases_earlier_exit_zero env g cm tp op ml cfgs 0 s ev hev i
      (Nat.zero_le i) (by omega)
    exact h hz.2
  · have hz := runCases_harvestErr_latest env g cm tp op ml cfgs 0 s i _ rfl
      h ev hev
    omega

/-- C6 witness: with the geometry tool failing from the start, a two-case
sweep records only the first matlab attempt; no event of case 1 occurs. -/
theorem run_monte_fail_fast_witness :
    ((⟨fun _ => 1, fun _ => [], fun _ => 0, fun _ => [],
        fun _ fs => fs⟩ : MonteEnv).matlabExit 0 ≠ 0 ∨
      (⟨fun _ => 1, fun _ => [], fun _ => 0, fun _ => [],
        fun _ fs => fs⟩ : MonteEnv).solverExit 0 ≠ 0 ∨
      MonteEvent.harvestErr 0 ∈ (run_monte
        ⟨fun _ => 1, fun _ => [], fun _ => 0, fun _ => [], fun _ fs => fs⟩
        ⟨none⟩ cmW "T" "O" "M" [cfgW, cfgW] ⟨[], [], [], []⟩).1) ∧
    (∀ ev ∈ (run_monte
        ⟨fun _ => 1, fun _ => [], fun _ => 0, fun _ => [], fun _ fs => fs⟩
        ⟨none⟩ cmW "T" "O" "M" [cfgW, cfgW] ⟨[], [], [], []⟩).1,
      ev.idx ≠ 1) :=
  ⟨Or.inl (by decide),
   run_monte_fail_fast
     ⟨fun _ => 1, fun _ => [], fun _ => 0, fun _ => [], fun _ fs => fs⟩
     ⟨none⟩ cmW "T" "O" "M" [cfgW, cfgW] ⟨[], [], [], []⟩ 0 1
     (Or.inl (by decide)) (by decide)⟩
